import Mathlib

/-!
Verification development for the py2neo utility module (`py2neo/util.py`)
and the Cypher statement-execution engine described by the design
specification.  Definitions are shallow embeddings of the Python source;
the Cypher engine itself is absent from the repository snapshot and is
modelled from the specification where indicated.
-/

namespace Py2neo

/-- Scalar values that reach `numberise`: Python strings, ints, floats
(modelled as rationals; the finite floats) and booleans.  Python's `None`
is modelled by `Option.none` at the use sites. -/
inductive PyVal where
  | str (s : String)
  | int (n : Int)
  | float (q : ℚ)
  | bool (b : Bool)
  deriving DecidableEq

/-- Truncation of a rational toward zero, the behaviour of Python's
`int()` applied to a float (e.g. `int(2.5) == 2`, `int(-2.5) == -2`). -/
def ratTrunc (q : ℚ) : Int :=
  if 0 ≤ q.num then q.num / (q.den : Int) else -((-q.num) / (q.den : Int))

/-- Numeric value of a nonempty list of ASCII digits, as Python's `int()`
computes it (most significant first; leading zeros allowed). -/
def natOfDigits (ds : List Char) : Nat :=
  ds.foldl (fun a c => 10 * a + (c.toNat - 48)) 0

/-- Parse the digit body of an integer literal: nonempty, all ASCII digits. -/
def digitsVal (ds : List Char) : Option Nat :=
  if ds ≠ [] ∧ ds.all Char.isDigit then some (natOfDigits ds) else none

/-- Python `int(s)` on a string: optional surrounding whitespace, optional
single sign, then a nonempty run of digits.  `none` models `ValueError`. -/
def parseIntLiteral (s : String) : Option Int :=
  let cs := (s.toList.dropWhile Char.isWhitespace).reverse.dropWhile Char.isWhitespace
  match cs.reverse with
  | '+' :: ds => (digitsVal ds).map Int.ofNat
  | '-' :: ds => (digitsVal ds).map (fun n => -(n : Int))
  | ds => (digitsVal ds).map Int.ofNat

/-- Python `int(n)` on the scalar domain.  `none` models a `ValueError`
(the only failure the source catches): a string that is not an integer
literal.  Floats truncate toward zero, booleans convert to 0/1. -/
def pyToInt : PyVal → Option Int
  | .str s => parseIntLiteral s
  | .int n => some n
  | .float q => some (ratTrunc q)
  | .bool b => some (if b then 1 else 0)

/-- Embedding of `util.numberise`: `if n == "NaN": return None;
try: return int(n); except ValueError: return n`.  The comparison with
the string `"NaN"` is only true for the string itself on this domain, so
it is structural equality.  `Option.none` models Python `None`. -/
def numberise (n : PyVal) : Option PyVal :=
  if n = PyVal.str "NaN" then none
  else
    match pyToInt n with
    | some k => some (PyVal.int k)
    | none => some n

/-- Embedding of the dict branch of `util.compact`: rebuild the mapping
from the pairs whose value `is not None`, in iteration order.  A Python
dict is modelled as its ordered key/value association list, with `None`
values as `Option.none`; the source builds a fresh dict, so the input is
untouched by construction. -/
def compact {α β : Type} (d : List (α × Option β)) : List (α × Option β) :=
  d.filter fun kv => kv.2.isSome

/-- Index formula of `util.pendulate`: even loop counters walk the front
(`i // 2`), odd counters walk the back (`count - (i + 1) // 2`). -/
def pendIndex (n i : Nat) : Nat :=
  if i % 2 = 0 then i / 2 else n - (i + 1) / 2

/-- Embedding of `util.pendulate`: for `i` in `range(len(collection))`,
yield `(index, collection[index])` with `index = pendIndex`.  Indexing is
through `List.getElem?` (Python indexing fails out of range; we prove
every produced index is in range). -/
def pendulate {α : Type} (l : List α) : List (Nat × Option α) :=
  (List.range l.length).map fun i =>
    (pendIndex l.length i, l[pendIndex l.length i]?)

/-- Result of matching the anchored regex `(\d+\.\d+(\.\d+)?)` of
`util.version_tuple` against the input: the two or three dot-separated
digit groups (`\d` modelled as ASCII digits, as matched by maximal munch,
which coincides with the greedy regex here). -/
def versionMatch (l : List Char) : Option (List Char × List Char × Option (List Char)) :=
  let d1 := l.takeWhile Char.isDigit
  if d1 = [] then none
  else
    match l.dropWhile Char.isDigit with
    | [] => none
    | c1 :: r2 =>
      if c1 = '.' then
        let d2 := r2.takeWhile Char.isDigit
        if d2 = [] then none
        else
          match r2.dropWhile Char.isDigit with
          | [] => some (d1, d2, none)
          | c2 :: r4 =>
            if c2 = '.' then
              let d3 := r4.takeWhile Char.isDigit
              if d3 = [] then some (d1, d2, none) else some (d1, d2, some d3)
            else some (d1, d2, none)
      else none

/-- The text of `group(0)` for a successful `versionMatch`. -/
def group0 (d1 d2 : List Char) (d3 : Option (List Char)) : List Char :=
  d1 ++ '.' :: d2 ++ (match d3 with | some d => '.' :: d | none => [])

/-- Embedding of `util.version_tuple` over the character list of the
input.  On a match, the matched dot-separated digit groups are converted
with `int` (the code's `group(0).split(".")` yields exactly the groups),
zero-padded at the end to three numbers, and the remainder of the input
after the match is stripped of leading `'.'`/`'-'` characters; otherwise
the result is `(0, 0, 0, input)`. -/
def version_tuple (l : List Char) : Nat × Nat × Nat × List Char :=
  match versionMatch l with
  | some (d1, d2, d3) =>
    let extra := (l.drop (group0 d1 d2 d3).length).dropWhile fun c => c = '.' ∨ c = '-'
    match d3 with
    | some c => (natOfDigits d1, natOfDigits d2, natOfDigits c, extra)
    | none => (natOfDigits d1, natOfDigits d2, 0, extra)
  | none => (0, 0, 0, l)

end Py2neo

namespace Py2neo

lemma ratTrunc_den_one (q : ℚ) (h : q.den = 1) : ratTrunc q = q.num := by
  unfold ratTrunc
  rw [h]
  push_cast
  split <;> omega

end Py2neo

open Py2neo

/-- C1: `numberise` maps the textual literal `"NaN"` to the absent value
(`None`), and any other input to its integer conversion when `int()`
succeeds, returning the input itself unchanged when the conversion fails
with a `ValueError`. -/
theorem numberise_nan_and_fallback (v : PyVal) :
    (v = PyVal.str "NaN" → numberise v = none) ∧
    (v ≠ PyVal.str "NaN" → ∀ k : Int, pyToInt v = some k →
      numberise v = some (PyVal.int k)) ∧
    (v ≠ PyVal.str "NaN" → pyToInt v = none → numberise v = some v) := by
  refine ⟨fun h => by simp [numberise, h], fun h k hk => ?_, fun h hk => ?_⟩
  · simp [numberise, h, hk]
  · simp [numberise, h, hk]

/-- Witness for C1 at concrete inputs: the sentinel, a convertible string
and a non-convertible string. -/
theorem numberise_nan_and_fallback_witness :
    numberise (PyVal.str "NaN") = none ∧
    numberise (PyVal.str "42") = some (PyVal.int 42) ∧
    numberise (PyVal.str "abc") = some (PyVal.str "abc") :=
  ⟨(numberise_nan_and_fallback (PyVal.str "NaN")).1 rfl,
   (numberise_nan_and_fallback (PyVal.str "42")).2.1 (by decide) 42 (by decide),
   (numberise_nan_and_fallback (PyVal.str "abc")).2.2 (by decide) (by decide)⟩

/-- C2 counterexample: the non-integral float `5/2` is truncated to the
integer `2` by `numberise` (Python's `int(2.5) == 2` succeeds, so the
`except ValueError` branch never fires), contradicting the claim that a
non-integral floating-point value is never truncated and is returned with
its fractional part preserved. -/
theorem numberise_truncation_counterexample :
    (mkRat 5 2).den ≠ 1 ∧
    numberise (PyVal.float (mkRat 5 2)) = some (PyVal.int 2) ∧
    numberise (PyVal.float (mkRat 5 2)) ≠ some (PyVal.float (mkRat 5 2)) := by
  decide

/-- C2 amended: for every numeric input `numberise` returns an integer —
the value itself when it is integral, and the value truncated toward zero
when it is not; a fractional part survives only in textual literals,
which fail the integer conversion and are returned unchanged. -/
theorem numberise_numeric_amended :
    (∀ q : ℚ, numberise (PyVal.float q) = some (PyVal.int (ratTrunc q))) ∧
    (∀ q : ℚ, q.den = 1 → ratTrunc q = q.num) ∧
    (∀ n : Int, numberise (PyVal.int n) = some (PyVal.int n)) ∧
    (∀ s : String, s ≠ "NaN" → parseIntLiteral s = none →
      numberise (PyVal.str s) = some (PyVal.str s)) := by
  refine ⟨fun q => by simp [numberise, pyToInt],
          fun q h => ratTrunc_den_one q h,
          fun n => by simp [numberise, pyToInt],
          fun s h hp => by simp [numberise, pyToInt, h, hp]⟩

/-- Witness for the amended C2 at concrete inputs. -/
theorem numberise_numeric_amended_witness :
    numberise (PyVal.float (mkRat 7 1)) = some (PyVal.int (ratTrunc (mkRat 7 1))) ∧
    ratTrunc (mkRat 7 1) = (mkRat 7 1).num ∧
    numberise (PyVal.int 7) = some (PyVal.int 7) ∧
    numberise (PyVal.str "x2") = some (PyVal.str "x2") :=
  ⟨numberise_numeric_amended.1 (mkRat 7 1),
   numberise_numeric_amended.2.1 (mkRat 7 1) (by decide),
   numberise_numeric_amended.2.2.1 7,
   numberise_numeric_amended.2.2.2 "x2" (by decide) (by decide)⟩

/-- C10: `compact` keeps exactly the key/value pairs whose value is not
`None`, with retained pairs unchanged and in their original order, and it
is idempotent.  The embedding is pure, so the input list is untouched by
construction. -/
theorem compact_spec {α β : Type} (d : List (α × Option β)) :
    (∀ kv : α × Option β, kv ∈ compact d ↔ kv ∈ d ∧ kv.2 ≠ none) ∧
    (compact d).Sublist d ∧
    compact (compact d) = compact d := by
  refine ⟨fun kv => ?_, List.filter_sublist d, ?_⟩
  · simp [compact, List.mem_filter, Option.isSome_iff_ne_none]
  · simp [compact, List.filter_filter]

/-- Witness for C10 at a concrete dictionary. -/
theorem compact_spec_witness :
    (compact [(("a" : String), some (1 : Nat)), ("b", none)]).Sublist
      [(("a" : String), some (1 : Nat)), ("b", none)] ∧
    compact (compact [(("a" : String), some (1 : Nat)), ("b", none)]) =
      compact [(("a" : String), some (1 : Nat)), ("b", none)] ∧
    ((("b" : String), (none : Option Nat)) ∈
        compact [(("a" : String), some (1 : Nat)), ("b", none)] ↔
      ((("b" : String), (none : Option Nat)) ∈
          [(("a" : String), some (1 : Nat)), ("b", none)] ∧
        (none : Option Nat) ≠ none)) :=
  ⟨(compact_spec _).2.1, (compact_spec _).2.2, (compact_spec _).1 ("b", none)⟩

/-- C9: `pendulate` yields exactly `n` pairs `(index, collection[index])`,
each index `0..n-1` exactly once, in the alternating front/back order
`0, n-1, 1, n-2, 2, n-3, ...` (even positions walk the front, odd
positions the back), and every produced index is in range. -/
theorem pendulate_spec {α : Type} (l : List α) :
    (pendulate l).length = l.length ∧
    (∀ j, 2 * j < l.length → (pendulate l)[2 * j]? = some (j, l[j]?)) ∧
    (∀ j, 2 * j + 1 < l.length →
      (pendulate l)[2 * j + 1]? = some (l.length - 1 - j, l[l.length - 1 - j]?)) ∧
    (∀ k, k < l.length → ((pendulate l).map Prod.fst).count k = 1) ∧
    (∀ p ∈ pendulate l, p.1 < l.length ∧ p.2 = l[p.1]? ∧ p.2.isSome) := by
  have hidx : ∀ i, i < l.length → pendIndex l.length i < l.length := by
    intro i hi
    unfold pendIndex
    split <;> omega
  refine ⟨by simp [pendulate], fun j hj => ?_, fun j hj => ?_, fun k hk => ?_, fun p hp => ?_⟩
  · have he : pendIndex l.length (2 * j) = j := by
      unfold pendIndex
      split <;> omega
    simp [pendulate, List.getElem?_map, List.getElem?_range, hj, he]
  · have ho : pendIndex l.length (2 * j + 1) = l.length - 1 - j := by
      unfold pendIndex
      split <;> omega
    simp [pendulate, List.getElem?_map, List.getElem?_range, hj, ho]
  · have hmap : (pendulate l).map Prod.fst = (List.range l.length).map (pendIndex l.length) := by
      simp [pendulate, List.map_map]
    rw [hmap]
    have hnodup : ((List.range l.length).map (pendIndex l.length)).Nodup := by
      refine List.Nodup.map_on ?_ (List.nodup_range l.length)
      intro x hx y hy hxy
      rw [List.mem_range] at hx hy
      unfold pendIndex at hxy
      split at hxy <;> split at hxy <;> omega
    have hmem : k ∈ (List.range l.length).map (pendIndex l.length) := by
      rcases Nat.lt_or_ge (2 * k) l.length with h2 | h2
      · refine List.mem_map.mpr ⟨2 * k, List.mem_range.mpr (by omega), ?_⟩
        unfold pendIndex
        split <;> omega
      · refine List.mem_map.mpr ⟨2 * (l.length - 1 - k) + 1, List.mem_range.mpr (by omega), ?_⟩
        unfold pendIndex
        split <;> omega
    exact List.count_eq_one_of_mem hnodup hmem
  · simp only [pendulate, List.mem_map, List.mem_range] at hp
    obtain ⟨i, hi, rfl⟩ := hp
    refine ⟨hidx i hi, rfl, ?_⟩
    simp [List.getElem?_eq_getElem (hidx i hi)]

/-- Witness for C9 on a concrete three-element collection. -/
theorem pendulate_spec_witness :
    (pendulate ["a", "b", "c"]).length = 3 ∧
    (pendulate ["a", "b", "c"])[1]? = some (2, some "c") ∧
    ((pendulate ["a", "b", "c"]).map Prod.fst).count 0 = 1 := by
  obtain ⟨h1, -, h3, h4, -⟩ := pendulate_spec ["a", "b", "c"]
  refine ⟨h1, ?_, h4 0 (by decide)⟩
  have h := h3 0 (by decide)
  simpa using h

namespace Py2neo

lemma takeWhile_append_all {p : Char → Bool} :
    ∀ (a r : List Char), (∀ ch ∈ a, p ch = true) →
      (∀ ch, r.head? = some ch → p ch = false) →
      (a ++ r).takeWhile p = a ∧ (a ++ r).dropWhile p = r := by
  intro a
  induction a with
  | nil =>
    intro r _ hr
    cases r with
    | nil => simp
    | cons ch cs => simp [List.takeWhile, List.dropWhile, hr ch rfl]
  | cons x xs ih =>
    intro r ha hr
    have hx : p x = true := ha x (List.mem_cons_self x xs)
    have := ih r (fun ch hch => ha ch (List.mem_cons_of_mem x hch)) hr
    simp [List.takeWhile, List.dropWhile, hx, this.1, this.2]

lemma headNotDot {xs : List Char} :
    ∀ ch, (('.' :: xs).head? = some ch) → ch.isDigit = false := by
  intro ch h
  simp at h
  subst h
  decide

lemma versionMatch_three (a b c r : List Char)
    (ha : a ≠ []) (had : ∀ ch ∈ a, ch.isDigit = true)
    (hb : b ≠ []) (hbd : ∀ ch ∈ b, ch.isDigit = true)
    (hc : c ≠ []) (hcd : ∀ ch ∈ c, ch.isDigit = true)
    (hr : ∀ ch, r.head? = some ch → ch.isDigit = false) :
    versionMatch (a ++ ('.' :: (b ++ ('.' :: (c ++ r))))) = some (a, b, some c) := by
  obtain ⟨ht1, hd1⟩ := takeWhile_append_all a ('.' :: (b ++ ('.' :: (c ++ r)))) had headNotDot
  obtain ⟨ht2, hd2⟩ := takeWhile_append_all b ('.' :: (c ++ r)) hbd headNotDot
  obtain ⟨ht3, hd3⟩ := takeWhile_append_all c r hcd hr
  simp only [versionMatch, ht1, hd1, ht2, hd2, ht3, hd3, if_neg ha, if_neg hb, if_neg hc]
  simp

lemma versionMatch_two (a b r : List Char)
    (ha : a ≠ []) (had : ∀ ch ∈ a, ch.isDigit = true)
    (hb : b ≠ []) (hbd : ∀ ch ∈ b, ch.isDigit = true)
    (hr : ∀ ch, r.head? = some ch → ch.isDigit = false)
    (hr2 : ∀ d rest, r = '.' :: (d :: rest) → d.isDigit = false) :
    versionMatch (a ++ ('.' :: (b ++ r))) = some (a, b, none) := by
  obtain ⟨ht1, hd1⟩ := takeWhile_append_all a ('.' :: (b ++ r)) had headNotDot
  obtain ⟨ht2, hd2⟩ := takeWhile_append_all b r hbd hr
  simp only [versionMatch, ht1, hd1, ht2, hd2, if_neg ha, if_neg hb]
  cases r with
  | nil => simp
  | cons c1 rest =>
    by_cases hc1 : c1 = '.'
    · subst hc1
      cases rest with
      | nil => simp
      | cons d rest2 =>
        have hd : d.isDigit = false := hr2 d rest2 rfl
        simp [List.takeWhile, hd]
    · simp [hc1]

lemma versionMatch_none_of_no_components (l : List Char)
    (h : ¬ ∃ a r, l = a ++ ('.' :: r) ∧ a ≠ [] ∧ (∀ ch ∈ a, ch.isDigit = true) ∧
        (∃ d, r.head? = some d ∧ d.isDigit = true)) :
    versionMatch l = none := by
  by_cases h1 : l.takeWhile Char.isDigit = []
  · simp [versionMatch, h1]
  · cases hdrop : l.dropWhile Char.isDigit with
    | nil => simp [versionMatch, h1, hdrop]
    | cons c1 r2 =>
      by_cases hc1 : c1 = '.'
      · subst hc1
        by_cases h2 : r2.takeWhile Char.isDigit = []
        · simp [versionMatch, h1, hdrop, h2]
        · exfalso
          apply h
          refine ⟨l.takeWhile Char.isDigit, r2, ?_, h1, ?_, ?_⟩
          · rw [← hdrop, List.takeWhile_append_dropWhile]
          · intro ch hch
            exact List.mem_takeWhile_imp hch
          · cases hr2 : r2 with
            | nil => rw [hr2] at h2; simp at h2
            | cons d rest =>
              refine ⟨d, rfl, ?_⟩
              rw [hr2] at h2
              by_contra hdd
              simp [List.takeWhile, Bool.eq_false_iff.mpr hdd] at h2
      · simp [versionMatch, h1, hdrop, hc1]

end Py2neo

/-- C8: `version_tuple` always produces three natural numbers and a
trailing string (the shape is its return type).  When the input begins
with two or three dot-separated digit groups, those groups (zero-padded
at the end to three numbers) form the integer part, and the remainder
with leading `'.'`/`'-'` characters stripped forms the string part; when
the input does not begin with two dot-separated digit groups the result
is `(0, 0, 0, input)`. -/
theorem version_tuple_spec :
    (∀ a b c r : List Char,
       a ≠ [] → (∀ ch ∈ a, ch.isDigit = true) →
       b ≠ [] → (∀ ch ∈ b, ch.isDigit = true) →
       c ≠ [] → (∀ ch ∈ c, ch.isDigit = true) →
       (∀ ch, r.head? = some ch → ch.isDigit = false) →
       version_tuple (a ++ ('.' :: (b ++ ('.' :: (c ++ r))))) =
         (natOfDigits a, natOfDigits b, natOfDigits c,
          r.dropWhile fun ch => ch = '.' ∨ ch = '-')) ∧
    (∀ a b r : List Char,
       a ≠ [] → (∀ ch ∈ a, ch.isDigit = true) →
       b ≠ [] → (∀ ch ∈ b, ch.isDigit = true) →
       (∀ ch, r.head? = some ch → ch.isDigit = false) →
       (∀ d rest, r = '.' :: (d :: rest) → d.isDigit = false) →
       version_tuple (a ++ ('.' :: (b ++ r))) =
         (natOfDigits a, natOfDigits b, 0,
          r.dropWhile fun ch => ch = '.' ∨ ch = '-')) ∧
    (∀ l : List Char,
       (¬ ∃ a r, l = a ++ ('.' :: r) ∧ a ≠ [] ∧ (∀ ch ∈ a, ch.isDigit = true) ∧
          (∃ d, r.head? = some d ∧ d.isDigit = true)) →
       version_tuple l = (0, 0, 0, l)) := by
  refine ⟨fun a b c r ha had hb hbd hc hcd hr => ?_,
          fun a b r ha had hb hbd hr hr2 => ?_,
          fun l h => ?_⟩
  · have hm := versionMatch_three a b c r ha had hb hbd hc hcd hr
    have hl : a ++ ('.' :: (b ++ ('.' :: (c ++ r)))) = group0 a b (some c) ++ r := by
      simp [group0]
    simp only [version_tuple, hm]
    rw [hl, List.drop_left]
  · have hm := versionMatch_two a b r ha had hb hbd hr hr2
    have hl : a ++ ('.' :: (b ++ r)) = group0 a b none ++ r := by
      simp [group0]
    simp only [version_tuple, hm]
    rw [hl, List.drop_left]
  · have hm := versionMatch_none_of_no_components l h
    simp [version_tuple, hm]

/-- Witness for C8: a three-component input with a dash suffix, and an
input with no version components at all. -/
theorem version_tuple_spec_witness :
    version_tuple ('1' :: '.' :: '2' :: '.' :: '3' :: '-' :: 'x' :: []) =
      (natOfDigits ['1'], natOfDigits ['2'], natOfDigits ['3'], ['x']) ∧
    version_tuple [] = (0, 0, 0, []) := by
  constructor
  · have h := version_tuple_spec.1 ['1'] ['2'] ['3'] ['-', 'x']
      (by decide) (by decide) (by decide) (by decide) (by decide) (by decide)
      (by intro ch hch; simp at hch; subst hch; decide)
    simpa using h
  · exact version_tuple_spec.2.2 []
      (by rintro ⟨a, r, heq, -, -, -⟩; simp at heq)

namespace Py2neo.Cypher

/-- Modelled from the spec: the server error unit of the response trailer
(spec section 6): `message`, `exception` classification, optional
qualified `fullname`, optional trace blob.  The `py2neo.cypher` module is
absent from the repository snapshot, so this component is modelled from
the specification. -/
structure RawError where
  message : String
  exception : String
  fullname : Option String
  trace : Option String

/-- Modelled from the spec: a dynamically structured wire value (spec
sections 4.2 and 6): scalars, sequences, keyed structures, and entity
units — a node unit (identifier, label set, property mapping), a
relationship unit (identifier, type string, start/end identifiers,
property mapping), and a path unit (ordered list alternating node and
relationship units). -/
inductive Raw where
  | null
  | bool (b : Bool)
  | int (n : Int)
  | float (q : ℚ)
  | str (s : String)
  | list (xs : List Raw)
  | map (kvs : List (String × Raw))
  | node (id : Int) (labels : List String) (props : List (String × Raw))
  | rel (id : Int) (type : String) (startId endId : Int) (props : List (String × Raw))
  | path (items : List Raw)

/-- Modelled from the spec: the data of a materialized Node instance
owned by the resolver arena: the payload of the node unit that first
constructed it. -/
structure NodeData where
  labels : List String
  props : List (String × Raw)

/-- Modelled from the spec: the data of a materialized Relationship
instance: type string, start/end node identities (references by identity,
not by embedding), property payload. -/
structure RelData where
  type : String
  startId : Int
  endId : Int
  props : List (String × Raw)

/-- Modelled from the spec (spec section 9, arena + index): the Resolver
Scope owns every materialized entity, keyed by remote id.  Decoded values
hold remote ids as handles into this arena, so two references denote the
identical instance exactly when they are equal handles — the arena maps
each id to at most one instance. -/
structure Scope where
  nodes : Int → Option NodeData
  rels : Int → Option RelData

/-- The empty Resolver Scope of a fresh session. -/
def emptyScope : Scope := ⟨fun _ => none, fun _ => none⟩

/-- Modelled from the spec (spec section 4.1): resolve a node id — keep
the cached instance, ignoring the fresh payload, when the id is already
in scope; otherwise construct the instance once and cache it.  The
resulting entity reference is the id itself, a handle into the arena. -/
def resolveNode (sc : Scope) (i : Int) (d : NodeData) : Scope :=
  match sc.nodes i with
  | some _ => sc
  | none => { sc with nodes := fun k => if k = i then some d else sc.nodes k }

/-- Modelled from the spec (spec section 4.1): resolve a relationship id,
with the same cache-first contract as `resolveNode`. -/
def resolveRel (sc : Scope) (i : Int) (d : RelData) : Scope :=
  match sc.rels i with
  | some _ => sc
  | none => { sc with rels := fun k => if k = i then some d else sc.rels k }

/-- Modelled from the spec (spec section 4.2): a decoded value — the
closed tagged union {Scalar, Mapping, Collection, Node, Relationship,
Path}.  Entities are handles (remote ids) into the Resolver Scope arena;
a Path records the alternation `n0 r0 n1 r1 ... nk` as its node-handle
sequence `[n0..nk]` and relationship-handle sequence `[r0..r(k-1)]`. -/
inductive Val where
  | null
  | bool (b : Bool)
  | int (n : Int)
  | float (q : ℚ)
  | str (s : String)
  | list (xs : List Val)
  | map (kvs : List (String × Val))
  | nodeRef (i : Int)
  | relRef (i : Int)
  | path (nodeIds : List Int) (relIds : List Int)

/-- Modelled from the spec (spec sections 4.2 rule 3 and 7): decode the
tail of a path unit, expecting alternating relationship/node units; any
other shape is a protocol fault (a decode fault, never a silent partial
result).  Resolution goes through the same Resolver Scope as entities
returned directly. -/
def decodePathTail (sc : Scope) : List Raw → Except String (Scope × List Int × List Int)
  | [] => .ok (sc, [], [])
  | .rel i t s e ps :: .node j ls nps :: rest =>
    match decodePathTail (resolveNode (resolveRel sc i ⟨t, s, e, ps⟩) j ⟨ls, nps⟩) rest with
    | .ok (sc3, ns, rs) => .ok (sc3, j :: ns, i :: rs)
    | .error m => .error m
  | _ => .error "malformed path alternation"

/-- Modelled from the spec: decode a whole path unit — a node unit
followed by an alternating relationship/node tail. -/
def decodePath (sc : Scope) (items : List Raw) : Except String (Scope × Val) :=
  match items with
  | .node j ls ps :: rest =>
    match decodePathTail (resolveNode sc j ⟨ls, ps⟩) rest with
    | .ok (sc2, ns, rs) => .ok (sc2, .path (j :: ns) rs)
    | .error m => .error m
  | _ => .error "malformed path alternation"

mutual

/-- Modelled from the spec (spec section 4.2): the recursive value
decoder.  Dispatch in priority order: node units and relationship units
resolve through the Resolver Scope; path units decode with the
alternation check; sequences and keyed structures decode recursively;
scalars are preserved in their own representation, with the textual
sentinel `"NaN"` normalized to null.  Decode failures are protocol
faults (`Except.error`), so no partially decoded row escapes. -/
def decodeVal (sc : Scope) : Raw → Except String (Scope × Val)
  | .null => .ok (sc, .null)
  | .bool b => .ok (sc, .bool b)
  | .int n => .ok (sc, .int n)
  | .float q => .ok (sc, .float q)
  | .str s => .ok (sc, if s = "NaN" then .null else .str s)
  | .node i ls ps => .ok (resolveNode sc i ⟨ls, ps⟩, .nodeRef i)
  | .rel i t s e ps => .ok (resolveRel sc i ⟨t, s, e, ps⟩, .relRef i)
  | .path items => decodePath sc items
  | .list xs =>
    match decodeList sc xs with
    | .ok (sc2, vs) => .ok (sc2, .list vs)
    | .error m => .error m
  | .map kvs =>
    match decodeMap sc kvs with
    | .ok (sc2, ps) => .ok (sc2, .map ps)
    | .error m => .error m

/-- Decode the elements of a sequence left to right, threading the
Resolver Scope. -/
def decodeList (sc : Scope) : List Raw → Except String (Scope × List Val)
  | [] => .ok (sc, [])
  | x :: xs =>
    match decodeVal sc x with
    | .ok (sc1, v) =>
      match decodeList sc1 xs with
      | .ok (sc2, vs) => .ok (sc2, v :: vs)
      | .error m => .error m
    | .error m => .error m

/-- Decode the values of a keyed structure left to right, threading the
Resolver Scope. -/
def decodeMap (sc : Scope) : List (String × Raw) → Except String (Scope × List (String × Val))
  | [] => .ok (sc, [])
  | (k, x) :: xs =>
    match decodeVal sc x with
    | .ok (sc1, v) =>
      match decodeMap sc1 xs with
      | .ok (sc2, ps) => .ok (sc2, (k, v) :: ps)
      | .error m => .error m
    | .error m => .error m

end

/-- Modelled from the spec (spec sections 3 and 4.4): the structured
Fault — classification, optional qualified classification, message, the
original statement text and parameter mapping (attached at the point of
raising, not present in the wire payload), and an optional trace blob. -/
structure Fault where
  exception : String
  fullname : Option String
  message : String
  statement : String
  parameters : Option (List (String × Raw))
  trace : Option String

/-- Modelled from the spec (spec section 7): the failures the engine
surfaces — a server-reported Query fault, or a Protocol fault from a
malformed wire structure. -/
inductive Failure where
  | query (f : Fault)
  | protocol (m : String)

/-- Modelled from the spec (spec section 4.4): the Error Decoder —
extract classification, qualified classification, message and trace from
the server error unit unmodified, attaching the statement and parameters
supplied by the Statement Executor. -/
def decodeError (e : RawError) (statement : String)
    (parameters : Option (List (String × Raw))) : Fault :=
  ⟨e.exception, e.fullname, e.message, statement, parameters, e.trace⟩

/-- Modelled from the spec (spec section 6): the streamed response — an
ordered column-name header, zero or more row units aligned to the header,
and a trailer that is empty on success or carries the error unit. -/
structure Response where
  columns : List String
  rows : List (List Raw)
  error : Option RawError

/-- A decoded Record: ordered (column name, value) pairs, with order
equal to the declared output order of the header. -/
abbrev Record := List (String × Val)

/-- Decode one row unit against the header's column list; a row that does
not align with the header is a protocol fault. -/
def decodeRow (sc : Scope) (cols : List String) (cells : List Raw) :
    Except String (Scope × Record) :=
  if cells.length = cols.length then
    match decodeList sc cells with
    | .ok (sc2, vs) => .ok (sc2, cols.zip vs)
    | .error m => .error m
  else .error "row does not align with header"

/-- Modelled from the spec (spec section 4.3): the lazy Result Stream
cursor after the header has been read (state `StreamingRows`): the rows
not yet consumed, the trailer, the Resolver Scope threaded through
decoding, and the statement/parameter context for fault decoration.  An
exhausted cursor in front of an empty trailer is state `Completed`; in
front of an error trailer it is state `Faulted`. -/
structure Cursor where
  statement : String
  parameters : Option (List (String × Raw))
  columns : List String
  pending : List (List Raw)
  trailer : Option RawError
  scope : Scope

/-- Modelled from the spec (spec section 4.5): `stream` — issue the
statement and hand back the lazy cursor directly (header consumed:
transition `AwaitingHeader` to `StreamingRows`). -/
def stream (sc : Scope) (statement : String)
    (parameters : Option (List (String × Raw))) (resp : Response) : Cursor :=
  ⟨statement, parameters, resp.columns, resp.rows, resp.error, sc⟩

/-- One step of the lazy stream: either the next decoded Record, or end
of data — at which point the trailer is checked and the decoded Fault is
surfaced instead of a normal end of sequence when one is present. -/
def cursorNext (c : Cursor) : Except Failure (Option (Record × Cursor)) :=
  match c.pending with
  | row :: rest =>
    match decodeRow c.scope c.columns row with
    | .ok (sc2, rec) => .ok (some (rec, { c with scope := sc2, pending := rest }))
    | .error m => .error (.protocol m)
  | [] =>
    match c.trailer with
    | some e => .error (.query (decodeError e c.statement c.parameters))
    | none => .ok none

lemma cursorNext_pending_length {c : Cursor} {r : Record} {c' : Cursor}
    (h : cursorNext c = .ok (some (r, c'))) :
    c'.pending.length < c.pending.length := by
  unfold cursorNext at h
  split at h
  · split at h
    · simp at h
      obtain ⟨-, h2⟩ := h
      rw [← h2]
      simp_all
    · simp at h
  · split at h <;> simp at h

/-- Draining the lazy stream: the list of Records obtained by pulling the
cursor until completion, or the fault at which iteration stops. -/
def streamToList (c : Cursor) : Except Failure (List Record) :=
  match _h : cursorNext c with
  | .error f => .error f
  | .ok none => .ok []
  | .ok (some (r, c')) =>
    match streamToList c' with
    | .ok rs => .ok (r :: rs)
    | .error f => .error f
termination_by c.pending.length
decreasing_by exact cursorNext_pending_length _h

/-- Eagerly decode all row units in order, threading the scope. -/
def executeRows (sc : Scope) (cols : List String) :
    List (List Raw) → Except String (Scope × List Record)
  | [] => .ok (sc, [])
  | row :: rest =>
    match decodeRow sc cols row with
    | .ok (sc1, rec) =>
      match executeRows sc1 cols rest with
      | .ok (sc2, recs) => .ok (sc2, rec :: recs)
      | .error m => .error m
    | .error m => .error m

/-- Modelled from the spec (spec section 4.5): `execute` — eagerly drain
the response into an ordered list of Records; raise the Fault when the
server reported one, decorated with the submitted statement and
parameters. -/
def execute (sc : Scope) (statement : String)
    (parameters : Option (List (String × Raw))) (resp : Response) :
    Except Failure (Scope × List Record) :=
  match executeRows sc resp.columns resp.rows with
  | .error m => .error (.protocol m)
  | .ok (sc2, recs) =>
    match resp.error with
    | some e => .error (.query (decodeError e statement parameters))
    | none => .ok (sc2, recs)

/-- Modelled from the spec (spec section 4.5): `run` — fire and forget:
discard all rows but still detect and raise any fault. -/
def run (sc : Scope) (statement : String)
    (parameters : Option (List (String × Raw))) (resp : Response) :
    Except Failure Scope :=
  match execute sc statement parameters resp with
  | .ok (sc2, _) => .ok sc2
  | .error f => .error f

/-- Modelled from the spec (spec section 4.5): `execute_one` — eagerly
drain, return the first column of the first row, an absent value for
zero rows, and raise the Fault on failure. -/
def execute_one (sc : Scope) (statement : String)
    (parameters : Option (List (String × Raw))) (resp : Response) :
    Except Failure (Scope × Option Val) :=
  match execute sc statement parameters resp with
  | .error f => .error f
  | .ok (sc2, recs) =>
    match recs with
    | [] => .ok (sc2, none)
    | rec :: _ =>
      match rec with
      | [] => .ok (sc2, none)
      | kv :: _ => .ok (sc2, some kv.2)

end Py2neo.Cypher

namespace Py2neo.Cypher

lemma streamToList_step_error {c : Cursor} {f : Failure}
    (h : cursorNext c = .error f) : streamToList c = .error f := by
  rw [streamToList]
  split <;> rename_i h' <;> rw [h] at h' <;> simp_all

lemma streamToList_step_none {c : Cursor}
    (h : cursorNext c = .ok none) : streamToList c = .ok [] := by
  rw [streamToList]
  split <;> rename_i h' <;> rw [h] at h' <;> simp_all

lemma streamToList_step_some {c : Cursor} {r : Record} {c' : Cursor}
    (h : cursorNext c = .ok (some (r, c'))) :
    streamToList c =
      match streamToList c' with
      | .ok rs => .ok (r :: rs)
      | .error f => .error f := by
  rw [streamToList]
  split <;> rename_i h' <;> rw [h] at h' <;> simp_all

lemma streamToList_eq_execute (statement : String)
    (parameters : Option (List (String × Raw))) :
    ∀ (rows : List (List Raw)) (sc : Scope) (cols : List String)
      (trailer : Option RawError),
      streamToList ⟨statement, parameters, cols, rows, trailer, sc⟩ =
        (match executeRows sc cols rows with
         | .error m => .error (.protocol m)
         | .ok (_, recs) =>
           match trailer with
           | some e => .error (.query (decodeError e statement parameters))
           | none => .ok recs) := by
  intro rows
  induction rows with
  | nil =>
    intro sc cols trailer
    cases trailer with
    | none => rw [streamToList_step_none (by simp [cursorNext])]; simp [executeRows]
    | some e =>
      rw [streamToList_step_error
        (show cursorNext ⟨statement, parameters, cols, [], some e, sc⟩ =
           Except.error (Failure.query (decodeError e statement parameters)) by
         simp [cursorNext])]
      simp [executeRows]
  | cons row rest ih =>
    intro sc cols trailer
    cases hd : decodeRow sc cols row with
    | error m =>
      rw [streamToList_step_error
        (show cursorNext ⟨statement, parameters, cols, row :: rest, trailer, sc⟩ =
           Except.error (Failure.protocol m) by
         simp [cursorNext, hd])]
      simp [executeRows, hd]
    | ok p =>
      obtain ⟨sc1, rec⟩ := p
      rw [streamToList_step_some
        (show cursorNext ⟨statement, parameters, cols, row :: rest, trailer, sc⟩ =
           Except.ok (some (rec, ⟨statement, parameters, cols, rest, trailer, sc1⟩)) by
         simp [cursorNext, hd])]
      rw [ih sc1 cols trailer]
      simp only [executeRows, hd]
      cases hrest : executeRows sc1 cols rest with
      | error m => simp
      | ok q =>
        obtain ⟨sc2, recs⟩ := q
        cases trailer <;> simp

lemma execute_query_fault {sc : Scope} {statement : String}
    {parameters : Option (List (String × Raw))} {resp : Response} {f : Fault}
    (h : execute sc statement parameters resp = .error (.query f)) :
    ∃ e, resp.error = some e ∧ f = decodeError e statement parameters := by
  unfold execute at h
  split at h
  · simp at h
  · split at h <;> rename_i he
    · simp at h
      exact ⟨_, he, h.symm⟩
    · simp at h

lemma run_error {sc : Scope} {statement : String}
    {parameters : Option (List (String × Raw))} {resp : Response} {x : Failure}
    (h : run sc statement parameters resp = .error x) :
    execute sc statement parameters resp = .error x := by
  unfold run at h
  split at h <;> simp_all

lemma execute_one_error {sc : Scope} {statement : String}
    {parameters : Option (List (String × Raw))} {resp : Response} {x : Failure}
    (h : execute_one sc statement parameters resp = .error x) :
    execute sc statement parameters resp = .error x := by
  unfold execute_one at h
  split at h
  · simp_all
  · split at h
    · simp at h
    · split at h <;> simp at h

lemma decodePathTail_length :
    ∀ (n : Nat) (items : List Raw), items.length ≤ n →
      ∀ (sc sc' : Scope) (ns rs : List Int),
        decodePathTail sc items = .ok (sc', ns, rs) → ns.length = rs.length := by
  intro n
  induction n with
  | zero =>
    intro items hlen sc sc' ns rs h
    have hnil : items = [] := List.eq_nil_of_length_eq_zero (Nat.le_zero.mp hlen)
    subst hnil
    simp [decodePathTail] at h
    obtain ⟨-, h2, h3⟩ := h
    subst h2
    subst h3
    rfl
  | succ n ih =>
    intro items hlen sc sc' ns rs h
    unfold decodePathTail at h
    split at h
    · simp at h
      obtain ⟨-, h2, h3⟩ := h
      subst h2
      subst h3
      rfl
    · rename_i i t s e ps j ls nps rest
      split at h <;> rename_i hrec
      · rename_i sc3 ns0 rs0
        simp at h
        obtain ⟨-, hns, hrs⟩ := h
        have hlen2 : rest.length ≤ n := by
          simp at hlen
          omega
        have hlen0 := ih rest hlen2 _ _ _ _ hrec
        subst hns
        subst hrs
        simp [hlen0]
      · simp at h
    · simp at h

end Py2neo.Cypher

open Py2neo.Cypher

/-- C7: draining the lazy stream cursor yields exactly the Record list of
the eager `execute` over the same statement, parameters and response —
row for row, in the same order, with the same fault when one occurs. -/
theorem stream_refines_execute (sc : Scope) (statement : String)
    (parameters : Option (List (String × Raw))) (resp : Response) :
    streamToList (stream sc statement parameters resp) =
      (execute sc statement parameters resp).map Prod.snd := by
  unfold stream execute
  rw [streamToList_eq_execute]
  cases executeRows sc resp.columns resp.rows with
  | error m => simp [Except.map]
  | ok p =>
    obtain ⟨sc2, recs⟩ := p
    cases resp.error <;> simp [Except.map]

/-- C3: whenever any of the four consumption modes raises a Query fault,
the fault's `statement` field is exactly the submitted statement text and
its `parameters` field is exactly the submitted parameter mapping (absent
when none was supplied); the message and classification fields are
exactly those the server reported. -/
theorem fault_context (sc : Scope) (statement : String)
    (parameters : Option (List (String × Raw))) (resp : Response) (f : Fault) :
    (execute sc statement parameters resp = .error (.query f) →
       f.statement = statement ∧ f.parameters = parameters ∧
       ∃ e, resp.error = some e ∧ f.message = e.message ∧
         f.exception = e.exception ∧ f.fullname = e.fullname) ∧
    (streamToList (stream sc statement parameters resp) = .error (.query f) →
       f.statement = statement ∧ f.parameters = parameters) ∧
    (run sc statement parameters resp = .error (.query f) →
       f.statement = statement ∧ f.parameters = parameters) ∧
    (execute_one sc statement parameters resp = .error (.query f) →
       f.statement = statement ∧ f.parameters = parameters) := by
  refine ⟨fun h => ?_, fun h => ?_, fun h => ?_, fun h => ?_⟩
  · obtain ⟨e, he, rfl⟩ := execute_query_fault h
    exact ⟨rfl, rfl, e, he, rfl, rfl, rfl⟩
  · unfold stream at h
    rw [streamToList_eq_execute] at h
    have hexec : execute sc statement parameters resp = .error (.query f) := by
      unfold execute
      cases hr : executeRows sc resp.columns resp.rows with
      | error m => rw [hr] at h; simp at h
      | ok p =>
        obtain ⟨sc2, recs⟩ := p
        rw [hr] at h
        cases htr : resp.error <;> rw [htr] at h <;> simp_all
    obtain ⟨e, he, rfl⟩ := execute_query_fault hexec
    exact ⟨rfl, rfl⟩
  · obtain ⟨e, he, rfl⟩ := execute_query_fault (run_error h)
    exact ⟨rfl, rfl⟩
  · obtain ⟨e, he, rfl⟩ := execute_query_fault (execute_one_error h)
    exact ⟨rfl, rfl⟩

/-- Witness for C3: a response whose trailer carries a syntax error unit;
the decoded fault carries the submitted statement and absent
parameters. -/
theorem fault_context_witness :
    (decodeError ⟨"Invalid input", "SyntaxException",
        some "org.neo4j.cypher.SyntaxException", none⟩ "SELECT z" none).statement =
      "SELECT z" ∧
    (decodeError ⟨"Invalid input", "SyntaxException",
        some "org.neo4j.cypher.SyntaxException", none⟩ "SELECT z" none).parameters =
      none := by
  have h := (fault_context emptyScope "SELECT z" none
      ⟨["x"], [], some ⟨"Invalid input", "SyntaxException",
        some "org.neo4j.cypher.SyntaxException", none⟩⟩
      (decodeError ⟨"Invalid input", "SyntaxException",
        some "org.neo4j.cypher.SyntaxException", none⟩ "SELECT z" none)).1 rfl
  exact ⟨h.1, h.2.1⟩

/-- C4: `execute_one` returns the single column's decoded value for a
one-row one-column result, the absent value for a zero-row result, and in
both shapes raises the server-reported fault instead of returning a value
when the trailer carries one. -/
theorem execute_one_spec (sc : Scope) (statement : String)
    (parameters : Option (List (String × Raw))) (cn : String) (cell : Raw)
    (sc1 : Scope) (v : Val) (cols : List String) (e : RawError) :
    (decodeVal sc cell = .ok (sc1, v) →
       execute_one sc statement parameters ⟨[cn], [[cell]], none⟩ = .ok (sc1, some v)) ∧
    (execute_one sc statement parameters ⟨cols, [], none⟩ = .ok (sc, none)) ∧
    (execute_one sc statement parameters ⟨cols, [], some e⟩ =
       .error (.query (decodeError e statement parameters))) ∧
    (decodeVal sc cell = .ok (sc1, v) →
       execute_one sc statement parameters ⟨[cn], [[cell]], some e⟩ =
         .error (.query (decodeError e statement parameters))) := by
  refine ⟨fun h => ?_, ?_, ?_, fun h => ?_⟩
  · simp [execute_one, execute, executeRows, decodeRow, decodeList, h]
  · simp [execute_one, execute, executeRows]
  · simp [execute_one, execute, executeRows]
  · simp [execute_one, execute, executeRows, decodeRow, decodeList, h]

/-- Witness for C4: a one-row one-column response and an empty response. -/
theorem execute_one_spec_witness :
    execute_one emptyScope "RETURN a.name" none
      ⟨["name"], [[.str "Alice"]], none⟩ = .ok (emptyScope, some (.str "Alice")) ∧
    execute_one emptyScope "RETURN a.name" none
      ⟨["name"], [], none⟩ = .ok (emptyScope, none) := by
  refine ⟨(execute_one_spec emptyScope "RETURN a.name" none "name" (.str "Alice")
      emptyScope (.str "Alice") ["name"] ⟨"", "", none, none⟩).1 (by simp [decodeVal]),
    (execute_one_spec emptyScope "RETURN a.name" none "name" (.str "Alice")
      emptyScope (.str "Alice") ["name"] ⟨"", "", none, none⟩).2.1⟩

/-- C5: a row in which two node units carry the same remote id decodes
both columns to the identical entity handle, the second resolution reuses
the cached instance (its fresh payload, even if different, is ignored),
and the arena holds a single instance for that id — identity within the
Resolver Scope, not merely attribute equality. -/
theorem param_identity (sc : Scope) (cols : List String) (i : Int)
    (ls1 ls2 : List String) (ps1 ps2 : List (String × Raw))
    (hcols : cols.length = 2) :
    ∃ sc' : Scope,
      decodeRow sc cols [.node i ls1 ps1, .node i ls2 ps2] =
        .ok (sc', cols.zip [.nodeRef i, .nodeRef i]) ∧
      (sc.nodes i = none → sc'.nodes i = some ⟨ls1, ps1⟩) ∧
      (∀ d0, sc.nodes i = some d0 → sc'.nodes i = some d0) := by
  cases hi : sc.nodes i with
  | some d0 =>
    refine ⟨sc, ?_, by simp, fun d h => by rw [hi]; exact h⟩
    simp [decodeRow, hcols, decodeList, decodeVal, resolveNode, hi]
  | none =>
    refine ⟨{ sc with nodes := fun k => if k = i then some ⟨ls1, ps1⟩ else sc.nodes k },
      ?_, fun _ => by simp, fun d h => nomatch h⟩
    simp [decodeRow, hcols, decodeList, decodeVal, resolveNode, hi]

/-- Witness for C5: both occurrences of node id 42 decode to the same
handle even though the second payload differs. -/
theorem param_identity_witness :
    ((decodeRow emptyScope ["a", "b"]
        [.node 42 ["Person"] [], .node 42 ["Other"] []]).toOption.map Prod.snd) =
      some [("a", Val.nodeRef 42), ("b", Val.nodeRef 42)] := by
  obtain ⟨sc', h1, -, -⟩ :=
    param_identity emptyScope ["a", "b"] 42 ["Person"] ["Other"] [] [] rfl
  rw [h1]
  rfl

/-- C6: every successfully decoded Path has exactly one more node than
relationship (the alternation starts and ends with a node, and the
length of the path is its relationship count); a path unit of one
relationship between two previously resolved nodes decodes to exactly two
node handles and one relationship handle, whose endpoints are the
identical previously resolved entities and whose type is the wire type
string. -/
theorem path_decode_spec (sc : Scope) :
    (∀ (items : List Raw) (sc' : Scope) (v : Val),
       decodePath sc items = .ok (sc', v) →
       ∃ ns rs, v = .path ns rs ∧ ns.length = rs.length + 1) ∧
    (∀ (i j r : Int) (t : String) (ls1 ls2 : List String)
       (ps1 ps2 rps : List (String × Raw)) (d1 d2 : NodeData),
       sc.nodes i = some d1 → sc.nodes j = some d2 → sc.rels r = none →
       ∃ sc' : Scope,
         decodePath sc [.node i ls1 ps1, .rel r t i j rps, .node j ls2 ps2] =
           .ok (sc', .path [i, j] [r]) ∧
         sc'.nodes i = some d1 ∧ sc'.nodes j = some d2 ∧
         sc'.rels r = some ⟨t, i, j, rps⟩) := by
  constructor
  · intro items sc' v h
    unfold decodePath at h
    split at h
    · rename_i j ls ps rest
      split at h <;> rename_i hrec
      · rename_i sc2 ns rs
        simp at h
        obtain ⟨-, hv⟩ := h
        refine ⟨j :: ns, rs, hv.symm, ?_⟩
        have := decodePathTail_length rest.length rest (Nat.le_refl _) _ _ _ _ hrec
        simp [this]
      · simp at h
    · simp at h
  · intro i j r t ls1 ls2 ps1 ps2 rps d1 d2 hi hj hr
    refine ⟨{ sc with rels := fun k => if k = r then some ⟨t, i, j, rps⟩ else sc.rels k },
      ?_, by simp [hi], by simp [hj], by simp⟩
    simp [decodePath, decodePathTail, resolveNode, resolveRel, hi, hj, hr]

/-- Witness for C6: a single-relationship path between the two cached
nodes 1 and 2 via fresh relationship 9. -/
theorem path_decode_spec_witness :
    ((decodePath
        ⟨fun k => if k = 1 then some ⟨["A"], []⟩ else
           if k = 2 then some ⟨["B"], []⟩ else none,
         fun _ => none⟩
        [.node 1 ["A"] [], .rel 9 "KNOWS" 1 2 [], .node 2 ["B"] []]).toOption.map
      Prod.snd) = some (Val.path [1, 2] [9]) := by
  obtain ⟨sc', h, -, -, -⟩ :=
    (path_decode_spec
      ⟨fun k => if k = 1 then some ⟨["A"], []⟩ else
         if k = 2 then some ⟨["B"], []⟩ else none,
       fun _ => none⟩).2 1 2 9 "KNOWS" ["A"] ["B"] [] [] [] ⟨["A"], []⟩ ⟨["B"], []⟩
      rfl rfl rfl
  rw [h]
  rfl
